import Mathlib

/-
Shallow embedding of `src/vector.py` (class `Vector`) from the
linear-algebra-refresher repository.

Conventions of the embedding:
* A `Vector` is its coordinate tuple, embedded as a `List K` over a linear
  ordered field `K`.  Python floats are idealised as exact numbers: claims of
  a purely computational / string-producing nature are stated at `K = ℚ`
  (every float literal is a rational, and rational arithmetic is decidable),
  while the analytic operations built on `math.sqrt` / `math.acos`
  (`__abs__`, `normalize`, `angle`, `projection`, `orthogonal_component`)
  are embedded at `K = ℝ` with `Real.sqrt` / `Real.arccos`.
* A Python exception is an `Except String` result; the string is the error
  message (`ValueError`, `ZeroDivisionError`, `NameError`, `AttributeError`).
* `zip`-based comprehensions (`__add__`, `__sub__`, `dot`, `is_parallel`)
  are embedded with `List.zip` followed by `List.map`, which reproduces the
  silent truncation to the shorter operand.
* Python's set comprehensions over formatted strings (`is_parallel`) are
  embedded as the deduplicated list of the produced strings: the size of the
  Python set is the length of `List.dedup`.
* `'{:.3f}'.format x` formats to three decimals with round-half-to-even,
  embedded by `fmt3` below (over `ℚ` there is no negative zero, which is the
  one float artefact this formatting model drops).
-/

namespace Vec

variable {K : Type} [LinearOrderedField K]

/-- Embeds `Vector.__add__`: `[a + b for a, b in zip(self.coordinates, other.coordinates)]`. -/
def vadd (x y : List K) : List K :=
  (x.zip y).map fun p => p.1 + p.2

/-- Embeds `Vector.__sub__`: `[a - b for a, b in zip(self.coordinates, other.coordinates)]`. -/
def vsub (x y : List K) : List K :=
  (x.zip y).map fun p => p.1 - p.2

/-- Embeds `Vector.__mul__`: `[v * scalar for v in self.coordinates]`.
`__rmul__(scalar)` delegates to this, so `scalar * v = vmul v scalar`. -/
def vmul (x : List K) (scalar : K) : List K :=
  x.map fun c => c * scalar

/-- Embeds `Vector.dot`: `sum(a * b for a, b in zip(self.coordinates, other.coordinates))`. -/
def dot (x y : List K) : K :=
  ((x.zip y).map fun p => p.1 * p.2).sum

/-- The radicand of `Vector.__abs__`: `sum(c ** 2 for c in self.coordinates)`. -/
def sumSq (x : List K) : K :=
  (x.map fun c => c ^ 2).sum

/-- Round-half-to-even to the nearest integer, the rounding used by Python's
fixed-precision float formatting. -/
def roundEven [FloorRing K] (x : K) : ℤ :=
  if x - ⌊x⌋ < 1 / 2 then ⌊x⌋
  else if 1 / 2 < x - ⌊x⌋ then ⌊x⌋ + 1
  else if Even ⌊x⌋ then ⌊x⌋ else ⌊x⌋ + 1

/-- The integer number of thousandths displayed by `'{:.3f}'.format q`. -/
def rnd3 [FloorRing K] (q : K) : ℤ :=
  roundEven (1000 * q)

/-- Left-pad a decimal numeral to three digits. -/
def pad3 (n : Nat) : String :=
  let s := toString n
  if s.length < 3 then String.mk (List.replicate (3 - s.length) '0') ++ s else s

/-- Embeds `'{:.3f}'.format q`: sign, integer part, and exactly three decimals. -/
def fmt3 [FloorRing K] (q : K) : String :=
  let n := rnd3 q
  let sign := if q < 0 then "-" else ""
  sign ++ toString (n.natAbs / 1000) ++ "." ++ pad3 (n.natAbs % 1000)

/-- Embeds `Vector.__format__`: each coordinate to three decimals, comma-separated,
parenthesized. -/
def vformat [FloorRing K] (x : List K) : String :=
  "(" ++ String.intercalate ", " (x.map fmt3) ++ ")"

/-- Embeds `Vector.__repr__`: `f'Vector{self.__format__()}'`. -/
def vrepr [FloorRing K] (x : List K) : String :=
  "Vector" ++ vformat x

/-- The message of Python's `ZeroDivisionError` on float division. -/
def zeroDivMsg : String := "ZeroDivisionError: float division by zero"

/-- One pass of `Vector.is_parallel`: the list of strings produced by the set
comprehension `{'{:.3f}'.format(b / a) for a, b in chain}`, evaluated left to
right, failing with `ZeroDivisionError` at a zero divisor.  The second pass
`{'{:.3f}'.format(a / b) for a, b in chain}` is this function applied to the
swapped pairs. -/
def divStrings [FloorRing K] [DecidableEq K] : List (K × K) → Except String (List String)
  | [] => .ok []
  | (a, b) :: rest =>
    if a = 0 then .error zeroDivMsg
    else
      match divStrings rest with
      | .error e => .error e
      | .ok s => .ok (fmt3 (b / a) :: s)

/-- Embeds `Vector.is_parallel`: build the set of 3-decimal-formatted ratios `b/a`;
if it has more than one element, rebuild it from the inverse ratios `a/b`;
parallel iff the final set is a singleton.  The size of a Python set of
strings is the length of the deduplicated list of produced strings. -/
def is_parallel [FloorRing K] [DecidableEq K] (x y : List K) : Except String Bool :=
  match divStrings (x.zip y) with
  | .error e => .error e
  | .ok divs =>
    if 1 < divs.dedup.length then
      match divStrings ((x.zip y).map fun p => (p.2, p.1)) with
      | .error e => .error e
      | .ok divs2 => .ok (divs2.dedup.length == 1)
    else .ok (divs.dedup.length == 1)

/-- Embeds `Vector.is_zero`: `math.isclose(abs(self), 0, abs_tol=1e-10)`.  Since
`abs(self) >= 0`, that condition is `abs(self) <= 1e-10`, i.e. the sum of
squares is at most `1e-20`. -/
def is_zero (x : List K) : Bool :=
  decide (sumSq x ≤ 1 / 10 ^ 20)

/-- Embeds `Vector.is_parallel_instructor_implementation`:
`self.is_zero() or v.is_zero() or round(self.angle(v, degrees=True), 2) in (0, 180)`.
The body names the undefined global `v` (the parameter `other` is never
used), so Python short-circuits to `True` when `self.is_zero()` holds and
otherwise fails with `NameError` when evaluating `v.is_zero()`. -/
def is_parallel_instructor_implementation (self other : List K) : Except String Bool :=
  if is_zero self then .ok true
  else .error "NameError: name v is not defined"

/-- A Python value handed to `Vector.__eq__`: either another `Vector` (which
has a `coordinates` attribute) or a non-`Vector` value such as a number or a
plain list (which has none). -/
inductive PyObj : Type where
  | vector (coordinates : List ℚ)
  | number (x : ℚ)
  | plainList (xs : List ℚ)
deriving DecidableEq

/-- Whether the Python value carries a `coordinates` attribute. -/
def hasCoordinatesAttr : PyObj → Bool
  | .vector _ => true
  | _ => false

/-- Embeds `Vector.__eq__`: `return self.coordinates == v.coordinates`.  Reading
`v.coordinates` on a non-`Vector` fails with `AttributeError`; between two
vectors it is exact tuple equality. -/
def vector_eq (self : List ℚ) : PyObj → Except String Bool
  | .vector d => .ok (decide (self = d))
  | .number _ => .error "AttributeError: object has no attribute coordinates"
  | .plainList _ => .error "AttributeError: object has no attribute coordinates"

/-- Modelled from the spec: no `cross` operation exists anywhere under `src/`
(the repository is a single evolving file and this revision lacks it), so it
is modelled from spec section 4.7: defined only for 3-dimensional vectors,
computing `(a2*b3 - a3*b2, -(a1*b3 - a3*b1), a1*b2 - a2*b1)`, and failing
with a `DimensionError` if either operand is not exactly 3-dimensional. -/
def cross (x y : List K) : Except String (List K) :=
  match x, y with
  | [a1, a2, a3], [b1, b2, b3] =>
    .ok [a2 * b3 - a3 * b2, -(a1 * b3 - a3 * b1), a1 * b2 - a2 * b1]
  | _, _ => .error "DimensionError"

/-- Embeds `Vector.__abs__`: `math.sqrt(sum(c ** 2 for c in self.coordinates))`. -/
noncomputable def magnitude (x : List ℝ) : ℝ :=
  Real.sqrt (sumSq x)

/-- Embeds `Vector.normalize`: `self * (1 / abs(self))`; the float division raises
`ZeroDivisionError` exactly when `abs(self)` is zero, which the method
re-raises as `ValueError('Cannot normalize a zero vector: {!r}'.format(self))`. -/
noncomputable def normalize (x : List ℝ) : Except String (List ℝ) :=
  if magnitude x = 0 then
    .error ("Cannot normalize a zero vector: " ++ vrepr x)
  else
    .ok (vmul x (1 / magnitude x))

/-- Embeds `Vector.angle`: normalize both operands (re-raising a zero-vector failure
as `ValueError('Cannot compute an angle with a zero vector')`), then
`rads = math.acos(uv.dot(uw))`, converted by `math.degrees` when requested. -/
noncomputable def angle (x y : List ℝ) (degrees : Bool) : Except String ℝ :=
  match normalize x, normalize y with
  | .ok uv, .ok uw =>
    .ok (if degrees then Real.arccos (dot uv uw) * (180 / Real.pi)
         else Real.arccos (dot uv uw))
  | _, _ => .error "Cannot compute an angle with a zero vector"

/-- Embeds `Vector.projection`: `self.dot(norm_b) * norm_b` with the zero-basis
normalization failure re-raised as
`ValueError(f'No unique parallel component to zero vector {repr(b)}')`.
(The source re-raises other `ValueError`s unchanged, but `normalize` produces
no other `ValueError`, so that branch is unreachable.) -/
noncomputable def projection (v b : List ℝ) : Except String (List ℝ) :=
  match normalize b with
  | .error _ => .error ("No unique parallel component to zero vector " ++ vrepr b)
  | .ok norm_b => .ok (vmul norm_b (dot v norm_b))

/-- Embeds `Vector.orthogonal_component`: `self - self.projection(b)` with the
zero-basis failure re-raised as
`ValueError(f'No unique orthogonal component to zero vector {repr(b)}')`. -/
noncomputable def orthogonal_component (v b : List ℝ) : Except String (List ℝ) :=
  match projection v b with
  | .error _ => .error ("No unique orthogonal component to zero vector " ++ vrepr b)
  | .ok p => .ok (vsub v p)

/-- The clamp described by the spec for the `angle` design: restrict the
`arccos` argument to `[lo, hi]`. -/
def clamp (q lo hi : K) : K :=
  max lo (min hi q)

/-! ### Supporting lemmas -/

theorem sumSq_nil : sumSq ([] : List K) = 0 := rfl

theorem sumSq_cons (c : K) (x : List K) : sumSq (c :: x) = c ^ 2 + sumSq x := by
  simp [sumSq]

theorem sumSq_nonneg (x : List K) : 0 ≤ sumSq x := by
  induction x with
  | nil => simp [sumSq]
  | cons c t ih => rw [sumSq_cons]; positivity

theorem sumSq_eq_zero_iff (x : List K) : sumSq x = 0 ↔ ∀ c ∈ x, c = 0 := by
  induction x with
  | nil => simp [sumSq]
  | cons c t ih =>
    rw [sumSq_cons]
    rw [add_eq_zero_iff_of_nonneg (by positivity) (sumSq_nonneg t)]
    simp [ih, pow_eq_zero_iff]

theorem sumSq_vmul (x : List K) (s : K) : sumSq (vmul x s) = sumSq x * s ^ 2 := by
  induction x with
  | nil => simp [sumSq, vmul]
  | cons c t ih => simp only [vmul, List.map_cons] at ih ⊢; rw [sumSq_cons, sumSq_cons, ih]; ring

theorem dot_self_eq_sumSq (x : List K) : dot x x = sumSq x := by
  induction x with
  | nil => rfl
  | cons c t ih => simp only [dot, sumSq, List.zip_cons_cons, List.map_cons, List.sum_cons] at ih ⊢; rw [ih]; ring_nf

theorem dot_vmul_left (x y : List K) (s : K) : dot (vmul x s) y = dot x y * s := by
  induction x generalizing y with
  | nil => simp [dot, vmul]
  | cons c t ih =>
    cases y with
    | nil => simp [dot, vmul]
    | cons d u =>
      simp only [vmul, List.map_cons, dot, List.zip_cons_cons, List.sum_cons] at ih ⊢
      rw [ih]; ring

theorem dot_vmul_right (x y : List K) (s : K) : dot x (vmul y s) = dot x y * s := by
  induction x generalizing y with
  | nil => simp [dot, vmul]
  | cons c t ih =>
    cases y with
    | nil => simp [dot, vmul]
    | cons d u =>
      simp only [vmul, List.map_cons, dot, List.zip_cons_cons, List.sum_cons] at ih ⊢
      rw [ih]; ring

theorem dot_vsub_left (v p y : List K) (h : v.length = p.length) :
    dot (vsub v p) y = dot v y - dot p y := by
  induction v generalizing p y with
  | nil =>
    cases p with
    | nil => simp [dot, vsub]
    | cons _ _ => exact absurd h (by simp)
  | cons c t ih =>
    cases p with
    | nil => exact absurd h (by simp)
    | cons d u =>
      cases y with
      | nil => simp [dot, vsub]
      | cons e w =>
        simp only [vsub, List.zip_cons_cons, List.map_cons, dot, List.sum_cons]
        have := ih u w (by simpa using h)
        simp only [vsub, dot] at this
        rw [this]; ring

theorem vadd_vsub_cancel (p v : List K) (h : p.length = v.length) :
    vadd p (vsub v p) = v := by
  induction p generalizing v with
  | nil =>
    cases v with
    | nil => rfl
    | cons _ _ => exact absurd h (by simp)
  | cons c t ih =>
    cases v with
    | nil => exact absurd h (by simp)
    | cons d u =>
      simp only [vsub, vadd, List.zip_cons_cons, List.map_cons, List.cons.injEq]
      refine ⟨by ring, ?_⟩
      have := ih u (by simpa using h)
      simpa [vsub, vadd] using this

theorem vmul_length (x : List K) (s : K) : (vmul x s).length = x.length := by
  simp [vmul]

theorem vadd_length (x y : List K) : (vadd x y).length = min x.length y.length := by
  simp [vadd]

theorem vsub_length (x y : List K) : (vsub x y).length = min x.length y.length := by
  simp [vsub]

theorem cs_zip (l : List (K × K)) :
    ((l.map fun p => p.1 * p.2).sum) ^ 2 ≤
      ((l.map fun p => p.1 ^ 2).sum) * ((l.map fun p => p.2 ^ 2).sum) := by
  induction l with
  | nil => simp
  | cons q t ih =>
    obtain ⟨a, b⟩ := q
    simp only [List.map_cons, List.sum_cons]
    have hA : (0 : K) ≤ (t.map fun p => p.1 ^ 2).sum := by
      apply List.sum_nonneg; intro z hz
      obtain ⟨p, _, rfl⟩ := List.mem_map.mp hz
      positivity
    have hB : (0 : K) ≤ (t.map fun p => p.2 ^ 2).sum := by
      apply List.sum_nonneg; intro z hz
      obtain ⟨p, _, rfl⟩ := List.mem_map.mp hz
      positivity
    set s := (t.map fun p => p.1 * p.2).sum with hs
    set A := (t.map fun p => p.1 ^ 2).sum with hA2
    set B := (t.map fun p => p.2 ^ 2).sum with hB2
    rcases eq_or_lt_of_le hA with hA0 | hApos
    · have hs0 : s = 0 := by
        have : s ^ 2 ≤ 0 := by nlinarith [ih]
        have := sq_nonneg s
        nlinarith [sq_abs s, abs_nonneg s, sq_nonneg (abs s)]
      rw [hs0, ← hA0]
      nlinarith [mul_nonneg (sq_nonneg a) hB, sq_nonneg (a * b)]
    · have key : (0 : K) ≤ (a ^ 2 + A) * (A * B - s ^ 2) :=
        mul_nonneg (by positivity) (by nlinarith [ih])
      nlinarith [key, sq_nonneg (A * b - a * s), hApos, hB]

theorem zip_fst_sq_le (x y : List K) :
    (((x.zip y).map fun p => p.1 ^ 2).sum) ≤ sumSq x := by
  induction x generalizing y with
  | nil => simp [sumSq]
  | cons c t ih =>
    cases y with
    | nil => simpa [sumSq] using sumSq_nonneg (c :: t)
    | cons d u =>
      simp only [List.zip_cons_cons, List.map_cons, List.sum_cons, sumSq_cons]
      exact add_le_add_left (ih u) _

theorem zip_snd_sq_le (x y : List K) :
    (((x.zip y).map fun p => p.2 ^ 2).sum) ≤ sumSq y := by
  induction x generalizing y with
  | nil => simpa [sumSq] using sumSq_nonneg y
  | cons c t ih =>
    cases y with
    | nil => simp [sumSq]
    | cons d u =>
      simp only [List.zip_cons_cons, List.map_cons, List.sum_cons, sumSq_cons]
      exact add_le_add_left (ih u) _

theorem dot_sq_le (x y : List K) : (dot x y) ^ 2 ≤ sumSq x * sumSq y := by
  refine le_trans (cs_zip (x.zip y)) ?_
  have h1 := zip_fst_sq_le x y
  have h2 := zip_snd_sq_le x y
  have h1n : (0 : K) ≤ ((x.zip y).map fun p => p.1 ^ 2).sum := by
    apply List.sum_nonneg; intro z hz
    obtain ⟨p, _, rfl⟩ := List.mem_map.mp hz
    positivity
  have h2n : (0 : K) ≤ ((x.zip y).map fun p => p.2 ^ 2).sum := by
    apply List.sum_nonneg; intro z hz
    obtain ⟨p, _, rfl⟩ := List.mem_map.mp hz
    positivity
  exact mul_le_mul h1 h2 h2n (sumSq_nonneg x)

theorem magnitude_nonneg (x : List ℝ) : 0 ≤ magnitude x :=
  Real.sqrt_nonneg _

theorem magnitude_eq_zero_iff (x : List ℝ) : magnitude x = 0 ↔ sumSq x = 0 := by
  rw [magnitude, Real.sqrt_eq_zero (sumSq_nonneg x)]

theorem rnd3_one_sixteenth : rnd3 ((1 : ℚ) / 16) = 62 := by
  have hf : (⌊(1000 : ℚ) * (1 / 16)⌋ : ℤ) = 62 := by
    rw [Int.floor_eq_iff]
    norm_num
  rw [rnd3, roundEven, hf]
  norm_num [Int.even_iff]

theorem fmt3_one_sixteenth : fmt3 ((1 : ℚ) / 16) = "0.062" := by
  rw [fmt3, rnd3_one_sixteenth]
  norm_num
  rfl

theorem rnd3_sixtytwo_thousandths : rnd3 ((31 : ℚ) / 500) = 62 := by
  have hf : (⌊(1000 : ℚ) * (31 / 500)⌋ : ℤ) = 62 := by
    rw [Int.floor_eq_iff]
    norm_num
  rw [rnd3, roundEven, hf]
  norm_num

theorem fmt3_sixtytwo_thousandths : fmt3 ((31 : ℚ) / 500) = "0.062" := by
  rw [fmt3, rnd3_sixtytwo_thousandths]
  norm_num
  rfl

/-- Lemma: `fmt3` depends only on the sign and on the rounded number of
thousandths: this is what "renders to exactly 3 decimal places" means. -/
theorem fmt3_congr [FloorRing K] (p q : K) (hn : rnd3 p = rnd3 q)
    (hsign : p < 0 ↔ q < 0) : fmt3 p = fmt3 q := by
  rw [fmt3, fmt3, hn]
  have hif : (if p < 0 then "-" else "") = (if q < 0 then "-" else "") :=
    if_congr hsign rfl rfl
  rw [hif]

theorem vformat_congr [FloorRing K] (v w : List K) (hlen : v.length = w.length)
    (hsame : ∀ i, i < v.length →
      rnd3 (v.getD i 0) = rnd3 (w.getD i 0) ∧ (v.getD i 0 < 0 ↔ w.getD i 0 < 0)) :
    vformat v = vformat w := by
  rw [vformat, vformat]
  suffices h : v.map fmt3 = w.map fmt3 by rw [h]
  induction v generalizing w with
  | nil =>
    cases w with
    | nil => rfl
    | cons _ _ => exact absurd hlen (by simp)
  | cons c t ih =>
    cases w with
    | nil => exact absurd hlen (by simp)
    | cons d u =>
      simp only [List.map_cons, List.cons.injEq]
      constructor
      · have := hsame 0 (by simp)
        simpa using fmt3_congr c d (by simpa using this.1) (by simpa using this.2)
      · exact ih u (by simpa using hlen) fun i hi => by
          simpa using hsame (i + 1) (by simpa using Nat.succ_lt_succ hi)

theorem zip_ne_nil {α β : Type} (x : List α) (y : List β) (hx : x ≠ []) (hy : y ≠ []) :
    x.zip y ≠ [] := by
  cases x with
  | nil => exact absurd rfl hx
  | cons a t =>
    cases y with
    | nil => exact absurd rfl hy
    | cons b u => simp

theorem dedup_len_one_of_all_eq {α : Type} [DecidableEq α] :
    ∀ l : List α, l ≠ [] → (∀ a ∈ l, ∀ b ∈ l, a = b) → l.dedup.length = 1 := by
  intro l
  induction l with
  | nil => intro h _; exact absurd rfl h
  | cons x t ih =>
    intro _ hall
    rcases eq_or_ne t [] with rfl | ht
    · simp
    · have hx : x ∈ t := by
        obtain ⟨y, u, rfl⟩ := List.exists_cons_of_ne_nil ht
        have hxy : x = y := hall x (by simp) y (by simp)
        simp [hxy]
      rw [List.dedup_cons_of_mem hx]
      exact ih ht fun a ha b hb => hall a (by simp [ha]) b (by simp [hb])

theorem dedup_length_eq_one_iff {α : Type} [DecidableEq α] (l : List α) (h : l ≠ []) :
    l.dedup.length = 1 ↔ ∀ a ∈ l, ∀ b ∈ l, a = b := by
  constructor
  · intro h1 a ha b hb
    obtain ⟨c, hc⟩ := List.length_eq_one.mp h1
    have ha' : a ∈ l.dedup := List.mem_dedup.mpr ha
    have hb' : b ∈ l.dedup := List.mem_dedup.mpr hb
    rw [hc] at ha' hb'
    simp only [List.mem_singleton] at ha' hb'
    rw [ha', hb']
  · exact dedup_len_one_of_all_eq l h

theorem divStrings_ok [FloorRing K] [DecidableEq K] :
    ∀ l : List (K × K), (∀ p ∈ l, p.1 ≠ 0) →
      divStrings l = Except.ok (l.map fun p => fmt3 (p.2 / p.1)) := by
  intro l
  induction l with
  | nil => intro _; rfl
  | cons q t ih =>
    intro hall
    obtain ⟨a, b⟩ := q
    have ha : a ≠ 0 := hall (a, b) (by simp)
    rw [divStrings, if_neg ha, ih fun p hp => hall p (by simp [hp])]
    simp

theorem divStrings_error [FloorRing K] [DecidableEq K] :
    ∀ l : List (K × K), (∃ p ∈ l, p.1 = 0) → divStrings l = Except.error zeroDivMsg := by
  intro l
  induction l with
  | nil => intro h; simp at h
  | cons q t ih =>
    intro hex
    obtain ⟨a, b⟩ := q
    rcases eq_or_ne a 0 with rfl | ha
    · rw [divStrings, if_pos rfl]
    · rw [divStrings, if_neg ha]
      have : ∃ p ∈ t, p.1 = 0 := by
        obtain ⟨p, hp, hp0⟩ := hex
        rcases List.mem_cons.mp hp with rfl | hpt
        · exact absurd hp0 ha
        · exact ⟨p, hpt, hp0⟩
      rw [ih this]

/-! ### Claim theorems -/

/-- C1: for every vector whose magnitude is exactly zero, `normalize` fails
with the re-raised degenerate-vector error whose message carries the
offending vector's representation; for every vector of non-zero magnitude it
returns `scale(v, 1/magnitude(v))` without error. -/
theorem normalize_degenerate_spec (v : List ℝ) :
    (magnitude v = 0 →
      normalize v = Except.error ("Cannot normalize a zero vector: " ++ vrepr v)) ∧
    (magnitude v ≠ 0 →
      normalize v = Except.ok (vmul v (1 / magnitude v))) := by
  constructor
  · intro h
    rw [normalize, if_pos h]
  · intro h
    rw [normalize, if_neg h]

/-- Witness for C1 at the zero vector `[0, 0]` and at `[3, 4]`. -/
theorem normalize_degenerate_spec_witness :
    normalize [0, 0] = Except.error ("Cannot normalize a zero vector: " ++ vrepr ([0, 0] : List ℝ)) ∧
    normalize [3, 4] = Except.ok (vmul [3, 4] (1 / magnitude [3, 4])) := by
  constructor
  · exact (normalize_degenerate_spec [0, 0]).1 (by
      rw [magnitude_eq_zero_iff]
      simp [sumSq])
  · exact (normalize_degenerate_spec [3, 4]).2 (by
      rw [Ne, magnitude_eq_zero_iff]
      simp [sumSq]
      norm_num)

/-- C3: `magnitude` is the square root of the sum of squared coordinates, is
always non-negative, and vanishes exactly on the all-zero vector; it is a
total function (never raises). -/
theorem magnitude_spec (v : List ℝ) :
    magnitude v = Real.sqrt (sumSq v) ∧ 0 ≤ magnitude v ∧
    (magnitude v = 0 ↔ ∀ c ∈ v, c = 0) :=
  ⟨rfl, magnitude_nonneg v, by rw [magnitude_eq_zero_iff]; exact sumSq_eq_zero_iff v⟩

/-- Witness for C3: the all-zero vector has magnitude zero. -/
theorem magnitude_spec_witness : magnitude [0, 0] = 0 :=
  (magnitude_spec [0, 0]).2.2.mpr (by simp)

/-- C9: the source of `is_parallel_instructor_implementation` references the
undefined global name `v` instead of its parameter `other`, so on a non-zero
`self` it raises `NameError` instead of classifying by angle; here the code
is evaluated at the failing input `self = [1, 0]`, `other = [2, 0]` (two
parallel non-zero vectors for which the claim requires `True`). -/
theorem instructor_parallel_raises :
    is_parallel_instructor_implementation ([1, 0] : List ℚ) [2, 0] =
      Except.error "NameError: name v is not defined" := by
  have hz : is_zero ([1, 0] : List ℚ) = false := by
    rw [is_zero, decide_eq_false_iff_not]
    simp [sumSq]
    norm_num
  rw [is_parallel_instructor_implementation, hz]
  rfl

/-- C10: `__eq__` against a value without a `coordinates` attribute raises
`AttributeError` rather than returning `False`; between two vectors it is
exact coordinate-tuple equality. -/
theorem vector_eq_spec (c : List ℚ) (w : PyObj) :
    (hasCoordinatesAttr w = false →
      vector_eq c w = Except.error "AttributeError: object has no attribute coordinates") ∧
    (∀ d, (vector_eq c (PyObj.vector d) = Except.ok true ↔ c = d)) := by
  constructor
  · intro h
    cases w with
    | vector d => simp [hasCoordinatesAttr] at h
    | number x => rfl
    | plainList xs => rfl
  · intro d
    simp [vector_eq]

/-- Witness for C10: comparing `Vector([1])` with the number `5` raises, and
`Vector([1]) == Vector([1])` holds. -/
theorem vector_eq_spec_witness :
    vector_eq [1] (PyObj.number 5) =
      Except.error "AttributeError: object has no attribute coordinates" ∧
    vector_eq [1] (PyObj.vector [1]) = Except.ok true :=
  ⟨(vector_eq_spec [1] (PyObj.number 5)).1 rfl,
   ((vector_eq_spec [1] (PyObj.number 5)).2 [1]).mpr rfl⟩

/-- Sum-over-paired-indices form of `dot`, used by C7. -/
theorem dot_eq_range_sum (x y : List ℚ) :
    dot x y = ((List.range (min x.length y.length)).map fun i => x.getD i 0 * y.getD i 0).sum := by
  induction x generalizing y with
  | nil => simp [dot]
  | cons c t ih =>
    cases y with
    | nil => simp [dot]
    | cons d u =>
      simp only [dot, List.zip_cons_cons, List.map_cons, List.sum_cons, List.length_cons]
      have hmin : (t.length + 1) ⊓ (u.length + 1) = t.length ⊓ u.length + 1 := by omega
      rw [hmin, List.range_succ_eq_map]
      simp only [List.map_cons, List.sum_cons, List.getD_cons_zero, List.map_map]
      have := ih u
      simp only [dot] at this
      rw [this]
      apply congrArg (c * d + ·)
      apply congrArg List.sum
      apply List.map_congr_left
      intro i _
      simp [Function.comp]

theorem vadd_getD (x y : List ℚ) (i : ℕ) (hi : i < min x.length y.length) :
    (vadd x y).getD i 0 = x.getD i 0 + y.getD i 0 := by
  induction x generalizing y i with
  | nil => simp at hi
  | cons c t ih =>
    cases y with
    | nil => simp at hi
    | cons d u =>
      cases i with
      | zero => simp [vadd]
      | succ j =>
        simp only [vadd, List.zip_cons_cons, List.map_cons, List.getD_cons_succ]
        refine ih u j ?_
        simp only [List.length_cons] at hi
        omega

theorem vsub_getD (x y : List ℚ) (i : ℕ) (hi : i < min x.length y.length) :
    (vsub x y).getD i 0 = x.getD i 0 - y.getD i 0 := by
  induction x generalizing y i with
  | nil => simp at hi
  | cons c t ih =>
    cases y with
    | nil => simp at hi
    | cons d u =>
      cases i with
      | zero => simp [vsub]
      | succ j =>
        simp only [vsub, List.zip_cons_cons, List.map_cons, List.getD_cons_succ]
        refine ih u j ?_
        simp only [List.length_cons] at hi
        omega

/-- C6 (spec-modelled): `cross` computes the standard 3D cross product on two
3-dimensional vectors and fails with `DimensionError` whenever either operand
is not exactly 3-dimensional. -/
theorem cross_spec (x y : List ℚ) :
    (∀ a1 a2 a3 b1 b2 b3 : ℚ, x = [a1, a2, a3] → y = [b1, b2, b3] →
      cross x y = Except.ok [a2 * b3 - a3 * b2, -(a1 * b3 - a3 * b1), a1 * b2 - a2 * b1]) ∧
    (x.length ≠ 3 ∨ y.length ≠ 3 → cross x y = Except.error "DimensionError") := by
  constructor
  · rintro a1 a2 a3 b1 b2 b3 rfl rfl
    rfl
  · intro h
    rcases x with _ | ⟨a1, _ | ⟨a2, _ | ⟨a3, _ | ⟨a4, xr⟩⟩⟩⟩ <;>
      rcases y with _ | ⟨b1, _ | ⟨b2, _ | ⟨b3, _ | ⟨b4, yr⟩⟩⟩⟩ <;>
      first
        | rfl
        | (exfalso; simp at h)

/-- Witness for C6: a 3D cross product and a dimension failure. -/
theorem cross_spec_witness :
    cross ([1, 2, 3] : List ℚ) [4, 5, 6] =
      Except.ok [2 * 6 - 3 * 5, -(1 * 6 - 3 * 4), 1 * 5 - 2 * 4] ∧
    cross ([1, 2] : List ℚ) [4, 5, 6] = Except.error "DimensionError" :=
  ⟨(cross_spec [1, 2, 3] [4, 5, 6]).1 1 2 3 4 5 6 rfl rfl,
   (cross_spec [1, 2] [4, 5, 6]).2 (Or.inl (by simp))⟩

/-- C7: `add`, `subtract` and `dot` on unequal dimensions raise no error:
they pair indices by zipping, silently truncating to the shorter operand, so
the sum/difference has dimension `min` of the operand dimensions and the dot
product sums over the paired indices only; on non-empty operands the result
is non-empty, so the `Vector` constructor check also passes. -/
theorem truncation_spec (x y : List ℚ) :
    (vadd x y).length = min x.length y.length ∧
    (vsub x y).length = min x.length y.length ∧
    (∀ i, i < min x.length y.length →
      (vadd x y).getD i 0 = x.getD i 0 + y.getD i 0 ∧
      (vsub x y).getD i 0 = x.getD i 0 - y.getD i 0) ∧
    dot x y = ((List.range (min x.length y.length)).map fun i => x.getD i 0 * y.getD i 0).sum ∧
    (x ≠ [] → y ≠ [] → vadd x y ≠ [] ∧ vsub x y ≠ []) := by
  refine ⟨vadd_length x y, vsub_length x y,
    fun i hi => ⟨vadd_getD x y i hi, vsub_getD x y i hi⟩, dot_eq_range_sum x y, ?_⟩
  intro hx hy
  constructor
  · intro hnil
    have := vadd_length x y
    rw [hnil] at this
    rcases x with _ | ⟨a, t⟩
    · exact hx rfl
    · rcases y with _ | ⟨b, u⟩
      · exact hy rfl
      · simp only [List.length_nil, List.length_cons] at this
        omega
  · intro hnil
    have := vsub_length x y
    rw [hnil] at this
    rcases x with _ | ⟨a, t⟩
    · exact hx rfl
    · rcases y with _ | ⟨b, u⟩
      · exact hy rfl
      · simp only [List.length_nil, List.length_cons] at this
        omega

/-- Witness for C7 at `[1, 2, 3]` and `[4, 5]`: paired index 1 and
non-emptiness. -/
theorem truncation_spec_witness :
    ((vadd [1, 2, 3] [4, 5]).getD 1 0 = ([1, 2, 3] : List ℚ).getD 1 0 + [4, 5].getD 1 0 ∧
      (vsub [1, 2, 3] [4, 5]).getD 1 0 = ([1, 2, 3] : List ℚ).getD 1 0 - [4, 5].getD 1 0) ∧
    (vadd ([1, 2, 3] : List ℚ) [4, 5] ≠ [] ∧ vsub ([1, 2, 3] : List ℚ) [4, 5] ≠ []) :=
  ⟨(truncation_spec [1, 2, 3] [4, 5]).2.2.1 1 (by simp),
   (truncation_spec [1, 2, 3] [4, 5]).2.2.2.2 (by simp) (by simp)⟩

/-- C4 counterexample: on the zero vector `[0, 0]` against `[1, 1]` (a case
where the claim requires `is_parallel` to return true and not raise), the
very first ratio `1/0` raises `ZeroDivisionError`. -/
theorem is_parallel_zero_raises :
    is_parallel ([0, 0] : List ℚ) [1, 1] = Except.error zeroDivMsg := by
  have h : divStrings (([0, 0] : List ℚ).zip [1, 1]) = Except.error zeroDivMsg := by
    apply divStrings_error
    exact ⟨(0, 1), by simp⟩
  rw [is_parallel, h]

/-- C4 as amended: `is_parallel` only returns normally when every first-pass
divisor (coordinate of `self`) is non-zero; it then reports whether all
3-decimal-formatted ratios `b_i/a_i` agree, retrying with the inverse ratios
`a_i/b_i` (whose divisors must then also all be non-zero, else
`ZeroDivisionError`) when they disagree.  A zero coordinate of `self` always
raises, so the zero vector is not treated as parallel to anything. -/
theorem is_parallel_spec_amended (x y : List ℚ) (hx : x ≠ []) (hy : y ≠ []) :
    ((∃ p ∈ x.zip y, p.1 = 0) → is_parallel x y = Except.error zeroDivMsg) ∧
    ((∀ p ∈ x.zip y, p.1 ≠ 0) →
      ((∀ p ∈ x.zip y, ∀ q ∈ x.zip y, fmt3 (p.2 / p.1) = fmt3 (q.2 / q.1)) →
        is_parallel x y = Except.ok true) ∧
      (¬(∀ p ∈ x.zip y, ∀ q ∈ x.zip y, fmt3 (p.2 / p.1) = fmt3 (q.2 / q.1)) →
        ((∃ p ∈ x.zip y, p.2 = 0) → is_parallel x y = Except.error zeroDivMsg) ∧
        ((∀ p ∈ x.zip y, p.2 ≠ 0) →
          is_parallel x y = Except.ok (decide (∀ p ∈ x.zip y, ∀ q ∈ x.zip y,
            fmt3 (p.1 / p.2) = fmt3 (q.1 / q.2)))))) := by
  have hchain : x.zip y ≠ [] := zip_ne_nil x y hx hy
  constructor
  · intro hex
    rw [is_parallel, divStrings_error (x.zip y) hex]
  · intro hall
    have hok : divStrings (x.zip y) =
        Except.ok ((x.zip y).map fun p => fmt3 (p.2 / p.1)) :=
      divStrings_ok (x.zip y) hall
    have hne : ((x.zip y).map fun p => fmt3 (p.2 / p.1)) ≠ [] := by
      simpa using hchain
    constructor
    · intro hagree
      have hlen1 : ((x.zip y).map fun p => fmt3 (p.2 / p.1)).dedup.length = 1 := by
        apply dedup_len_one_of_all_eq _ hne
        intro a ha b hb
        obtain ⟨p, hp, rfl⟩ := List.mem_map.mp ha
        obtain ⟨q, hq, rfl⟩ := List.mem_map.mp hb
        exact hagree p hp q hq
      rw [is_parallel, hok]
      dsimp only
      rw [if_neg (by rw [hlen1]; omega)]
      simp [hlen1]
    · intro hdis
      have hlen1 : ((x.zip y).map fun p => fmt3 (p.2 / p.1)).dedup.length ≠ 1 := by
        intro h1
        apply hdis
        intro p hp q hq
        exact (dedup_length_eq_one_iff _ hne).mp h1 _ (List.mem_map_of_mem _ hp) _
          (List.mem_map_of_mem _ hq)
      have hgt : 1 < ((x.zip y).map fun p => fmt3 (p.2 / p.1)).dedup.length := by
        have h0 : ((x.zip y).map fun p => fmt3 (p.2 / p.1)).dedup ≠ [] := by
          simpa [List.dedup_eq_nil] using hne
        have := List.length_pos.mpr h0
        omega
      constructor
      · intro hex2
        have : ∃ p ∈ (x.zip y).map fun p => (p.2, p.1), p.1 = 0 := by
          obtain ⟨p, hp, hp0⟩ := hex2
          exact ⟨(p.2, p.1), List.mem_map_of_mem _ hp, hp0⟩
        rw [is_parallel, hok]
        dsimp only
        rw [if_pos hgt, divStrings_error _ this]
      · intro hall2
        have hall2' : ∀ p ∈ (x.zip y).map fun p => (p.2, p.1), p.1 ≠ 0 := by
          intro p hp
          obtain ⟨q, hq, rfl⟩ := List.mem_map.mp hp
          exact hall2 q hq
        have hok2 := divStrings_ok _ hall2'
        rw [is_parallel, hok]
        dsimp only
        rw [if_pos hgt, hok2]
        dsimp only
        congr 1
        rw [List.map_map]
        have hne2 : ((x.zip y).map fun p => fmt3 (p.1 / p.2)) ≠ [] := by
          simpa using hchain
        rcases Classical.em (∀ p ∈ x.zip y, ∀ q ∈ x.zip y,
            fmt3 (p.1 / p.2) = fmt3 (q.1 / q.2)) with hag | hnag
        · rw [decide_eq_true hag]
          have : ((x.zip y).map fun p => fmt3 (p.1 / p.2)).dedup.length = 1 := by
            apply dedup_len_one_of_all_eq _ hne2
            intro a ha b hb
            obtain ⟨p, hp, rfl⟩ := List.mem_map.mp ha
            obtain ⟨q, hq, rfl⟩ := List.mem_map.mp hb
            exact hag p hp q hq
          simpa [Function.comp] using this
        · rw [decide_eq_false hnag]
          have : ((x.zip y).map fun p => fmt3 (p.1 / p.2)).dedup.length ≠ 1 := by
            intro h1
            apply hnag
            intro p hp q hq
            exact (dedup_length_eq_one_iff _ hne2).mp h1 _ (List.mem_map_of_mem _ hp) _
              (List.mem_map_of_mem _ hq)
          simpa [Function.comp] using this

/-- Witness for C4: `[1, 1]` and `[2, 2]` have all first-pass divisors
non-zero and all formatted ratios equal, so `is_parallel` returns true. -/
theorem is_parallel_spec_amended_witness :
    is_parallel ([1, 1] : List ℚ) [2, 2] = Except.ok true :=
  ((is_parallel_spec_amended [1, 1] [2, 2] (by simp) (by simp)).2 (by
      intro p hp
      simp only [List.zip_cons_cons, List.zip_nil_right, List.mem_cons,
        List.not_mem_nil, or_false] at hp
      rcases hp with rfl | rfl <;> norm_num)).1 (by
    intro p hp q hq
    simp only [List.zip_cons_cons, List.zip_nil_right, List.mem_cons,
      List.not_mem_nil, or_false] at hp hq
    rcases hp with rfl | rfl <;> rcases hq with rfl | rfl <;> rfl)

/-- C8 counterexample: the default form applies the 3-decimal rounding (it is
`'Vector'` glued to `__format__`), so the two distinct coordinate values
`1/16 = 0.0625` and `31/500 = 0.062` get the same default rendering — which
is impossible if the default form used each coordinate's natural,
unconstrained decimal string. -/
theorem repr_rounds_counterexample :
    vrepr [(1 : ℚ) / 16] = "Vector(0.062)" ∧
    vrepr [(31 : ℚ) / 500] = "Vector(0.062)" ∧
    (1 : ℚ) / 16 ≠ (31 : ℚ) / 500 := by
  refine ⟨?_, ?_, by norm_num⟩
  · rw [vrepr, vformat, List.map_cons, List.map_nil, fmt3_one_sixteenth]
    rfl
  · rw [vrepr, vformat, List.map_cons, List.map_nil, fmt3_sixtytwo_thousandths]
    rfl

/-- C8 as amended: only the fixed-3-decimal presentation exists; the default
form is `'Vector'` followed by it, so the default rendering also rounds to
exactly 3 decimal places — it depends only on each coordinate's sign and its
rounded number of thousandths. -/
theorem repr_spec_amended (v w : List ℚ) (hlen : v.length = w.length)
    (hsame : ∀ i, i < v.length →
      rnd3 (v.getD i 0) = rnd3 (w.getD i 0) ∧ (v.getD i 0 < 0 ↔ w.getD i 0 < 0)) :
    vrepr v = "Vector" ++ vformat v ∧
    vformat v = "(" ++ String.intercalate ", " (v.map fmt3) ++ ")" ∧
    vrepr v = vrepr w := by
  refine ⟨rfl, rfl, ?_⟩
  rw [vrepr, vrepr, vformat_congr v w hlen hsame]

/-- Witness for C8: `[1/16]` and `[31/500]` round to the same thousandths, so
their default renderings agree. -/
theorem repr_spec_amended_witness :
    vrepr [(1 : ℚ) / 16] = "Vector" ++ vformat [(1 : ℚ) / 16] ∧
    vformat [(1 : ℚ) / 16] = "(" ++ String.intercalate ", " ([(1 : ℚ) / 16].map fmt3) ++ ")" ∧
    vrepr [(1 : ℚ) / 16] = vrepr [(31 : ℚ) / 500] := by
  refine repr_spec_amended [(1 : ℚ) / 16] [(31 : ℚ) / 500] rfl ?_
  intro i hi
  have hi0 : i = 0 := by simpa using hi
  subst hi0
  refine ⟨?_, by norm_num⟩
  simp only [List.getD_cons_zero]
  rw [rnd3_one_sixteenth, rnd3_sixtytwo_thousandths]

/-- C2: for any vector and any non-zero basis of the same dimension, the
projection and the orthogonal component both succeed, sum back to the
original vector, and the orthogonal component is orthogonal to the basis
(exactly, in the real-number idealisation of float arithmetic). -/
theorem decomposition_spec (v b : List ℝ) (hlen : v.length = b.length)
    (hb : sumSq b ≠ 0) :
    ∃ p o, projection v b = Except.ok p ∧ orthogonal_component v b = Except.ok o ∧
      vadd p o = v ∧ dot o b = 0 := by
  have hm : magnitude b ≠ 0 := fun h => hb ((magnitude_eq_zero_iff b).mp h)
  have hsq : magnitude b ^ 2 = sumSq b := Real.sq_sqrt (sumSq_nonneg b)
  have hnormb : normalize b = Except.ok (vmul b (1 / magnitude b)) := by
    rw [normalize, if_neg hm]
  have hproj : projection v b =
      Except.ok (vmul (vmul b (1 / magnitude b)) (dot v (vmul b (1 / magnitude b)))) := by
    rw [projection, hnormb]
  have horth : orthogonal_component v b =
      Except.ok (vsub v (vmul (vmul b (1 / magnitude b)) (dot v (vmul b (1 / magnitude b))))) := by
    rw [orthogonal_component, hproj]
  have hplen : v.length =
      (vmul (vmul b (1 / magnitude b)) (dot v (vmul b (1 / magnitude b)))).length := by
    simp [vmul_length, hlen]
  refine ⟨_, _, hproj, horth, ?_, ?_⟩
  · exact vadd_vsub_cancel _ v hplen.symm
  · rw [dot_vsub_left v _ b hplen]
    rw [dot_vmul_left, dot_vmul_left, dot_self_eq_sumSq, dot_vmul_right]
    field_simp
    linear_combination (dot v b) * hsq

/-- Witness for C2 at `v = [1, 0]`, `b = [0, 2]`. -/
theorem decomposition_spec_witness :
    ∃ p o, projection [1, 0] [0, 2] = Except.ok p ∧
      orthogonal_component [1, 0] [0, 2] = Except.ok o ∧
      vadd p o = [1, 0] ∧ dot o [0, 2] = 0 :=
  decomposition_spec [1, 0] [0, 2] rfl (by simp [sumSq])

/-- C5: on non-zero operands, `angle` normalizes both, and its result is
`arccos` of the clamped unit dot product — the argument lies within the
`arccos` domain `[-1, 1]` (Cauchy-Schwarz), so the clamp is the identity, no
domain failure can occur, and the radians are scaled by `180/π` when degrees
are requested. -/
theorem angle_clamped_spec (x y : List ℝ) (hx : sumSq x ≠ 0) (hy : sumSq y ≠ 0) :
    ∃ ux uy, normalize x = Except.ok ux ∧ normalize y = Except.ok uy ∧
      -1 ≤ dot ux uy ∧ dot ux uy ≤ 1 ∧
      angle x y false = Except.ok (Real.arccos (clamp (dot ux uy) (-1) 1)) ∧
      angle x y true = Except.ok (Real.arccos (clamp (dot ux uy) (-1) 1) * (180 / Real.pi)) := by
  have hmx : magnitude x ≠ 0 := fun h => hx ((magnitude_eq_zero_iff x).mp h)
  have hmy : magnitude y ≠ 0 := fun h => hy ((magnitude_eq_zero_iff y).mp h)
  have hsqx : magnitude x ^ 2 = sumSq x := Real.sq_sqrt (sumSq_nonneg x)
  have hsqy : magnitude y ^ 2 = sumSq y := Real.sq_sqrt (sumSq_nonneg y)
  have hnx : normalize x = Except.ok (vmul x (1 / magnitude x)) := by
    rw [normalize, if_neg hmx]
  have hny : normalize y = Except.ok (vmul y (1 / magnitude y)) := by
    rw [normalize, if_neg hmy]
  have hsux : sumSq (vmul x (1 / magnitude x)) = 1 := by
    rw [sumSq_vmul, div_pow, one_pow, hsqx, one_div, mul_inv_cancel₀ hx]
  have hsuy : sumSq (vmul y (1 / magnitude y)) = 1 := by
    rw [sumSq_vmul, div_pow, one_pow, hsqy, one_div, mul_inv_cancel₀ hy]
  have hb2 : dot (vmul x (1 / magnitude x)) (vmul y (1 / magnitude y)) ^ 2 ≤ 1 := by
    have h := dot_sq_le (vmul x (1 / magnitude x)) (vmul y (1 / magnitude y))
    rw [hsux, hsuy] at h
    simpa using h
  have hble : dot (vmul x (1 / magnitude x)) (vmul y (1 / magnitude y)) ≤ 1 := by
    nlinarith [hb2]
  have hbge : (-1 : ℝ) ≤ dot (vmul x (1 / magnitude x)) (vmul y (1 / magnitude y)) := by
    nlinarith [hb2]
  have hclamp : clamp (dot (vmul x (1 / magnitude x)) (vmul y (1 / magnitude y))) (-1) 1 =
      dot (vmul x (1 / magnitude x)) (vmul y (1 / magnitude y)) := by
    rw [clamp, min_eq_right hble, max_eq_right hbge]
  refine ⟨_, _, hnx, hny, hbge, hble, ?_, ?_⟩
  · rw [angle, hnx, hny]
    dsimp only
    rw [if_neg (by simp : ¬(false = true)), hclamp]
  · rw [angle, hnx, hny]
    dsimp only
    rw [if_pos rfl, hclamp]

/-- Witness for C5 at `x = [1, 0]`, `y = [0, 1]`. -/
theorem angle_clamped_spec_witness :
    ∃ ux uy, normalize [1, 0] = Except.ok ux ∧ normalize [0, 1] = Except.ok uy ∧
      -1 ≤ dot ux uy ∧ dot ux uy ≤ 1 ∧
      angle [1, 0] [0, 1] false = Except.ok (Real.arccos (clamp (dot ux uy) (-1) 1)) ∧
      angle [1, 0] [0, 1] true =
        Except.ok (Real.arccos (clamp (dot ux uy) (-1) 1) * (180 / Real.pi)) :=
  angle_clamped_spec [1, 0] [0, 1] (by simp [sumSq]) (by simp [sumSq])

end Vec
